import Mathlib

/-!
Formal model of the burke/kafka consumer (`consumer.go`).

The consumer owns an offset cursor and a max-fetch-size bound; one consume
pass (`consumeWithConn`) scans a length-prefixed response payload, decodes
concatenated message frames, hands each decoded message to a handler, and on
success advances the cursor by the bytes consumed.  `GetOffsets` scans an
offset-query response.  `ConsumeOnChannel` and `ConsumeUntilQuit` wrap the
pass in polling loops.

Machine integers are modelled as `Nat` with explicit wraparound (`% 2 ^ 32`
for Go `uint32` arithmetic, `% 2 ^ 64` for `uint64`) at the operations where
the Go source performs fixed-width arithmetic.  The connection helper
(`connect` / `readResponse`) is an external collaborator: a pass takes the
`(length, payload)` pair returned by `readResponse` as input, where `length`
is the value of the response frame's 4-byte big-endian length field.
-/

namespace Kafka

/-- Read one byte of a buffer; out-of-range reads give 0. -/
def byteAt (l : List Nat) (i : Nat) : Nat := l.getD i 0

/-- Big-endian 32-bit read of the first four bytes of a buffer, as in
`binary.BigEndian.Uint32(buf[0:])`. -/
def be32dec (l : List Nat) : Nat :=
  ((byteAt l 0 * 256 + byteAt l 1) * 256 + byteAt l 2) * 256 + byteAt l 3

/-- Big-endian 64-bit read of the first eight bytes of a buffer, as in
`binary.BigEndian.Uint64(buf[0:])`. -/
def be64dec (l : List Nat) : Nat :=
  ((((((byteAt l 0 * 256 + byteAt l 1) * 256 + byteAt l 2) * 256 + byteAt l 3) * 256
    + byteAt l 4) * 256 + byteAt l 5) * 256 + byteAt l 6) * 256 + byteAt l 7

/-- Big-endian 4-byte encoding of a value `n < 2 ^ 32`. -/
def be32enc (n : Nat) : List Nat :=
  [n / 2 ^ 24 % 256, n / 2 ^ 16 % 256, n / 2 ^ 8 % 256, n % 256]

/-- A decoded message: assigned absolute offset (`uint64`), the stored length
field `totalLength` (`uint32`, checksum region + payload length), the 4-byte
checksum and the payload bytes. -/
structure Message where
  offset : Nat
  totalLength : Nat
  checksum : List Nat
  payload : List Nat
  deriving DecidableEq

/-- Modelled from the spec: the repository file defining the message codec
(`Decode`) is not under `src/`.  Per the spec, `Decode` interprets the first
4 bytes of the buffer as the stored length field (checksum region + payload
length, excluding the 4-byte length field itself), reads the following bytes
as checksum and payload, and signals failure (`none`) when the buffer is
shorter than the declared length — including when it cannot even hold the
4-byte length field. -/
def Decode (buffer : List Nat) : Option Message :=
  if buffer.length < 4 then none
  else if buffer.length - 4 < be32dec buffer then none
  else some { offset := 0, totalLength := be32dec buffer,
              checksum := (buffer.drop 4).take 4,
              payload := (buffer.drop 8).take (be32dec buffer - 4) }

/-- Outcome of the scan loop of one consume pass. -/
inductive ScanOutcome where
  | ok : ScanOutcome
  | decodeErr : ScanOutcome
  | diverged : ScanOutcome
  deriving DecidableEq

/-- State returned by the scan loop: handler-invocation count `num`, the
messages handed to the handler in order, the final `currentOffset`, and the
outcome. -/
structure ScanResult where
  num : Nat
  handled : List Message
  currentOffset : Nat
  outcome : ScanOutcome
  deriving DecidableEq

/-- The scan loop of `consumeWithConn`:
`for currentOffset <= uint64(length-4) { msg := Decode(payload[currentOffset:]); ... }`.
Each iteration decodes one message at `currentOffset`, assigns it absolute
offset `base + currentOffset` (`uint64` addition), advances `currentOffset`
by `uint64(4 + msg.totalLength)` (the sum computed in `uint32`), invokes the
handler and increments `num`.  A decode failure ends the pass with
`decodeErr`.  The loop is given as fuel-indexed structural recursion; the
caller passes `bound + 2` fuel, which is exhausted only on runs where the
Go loop would not terminate (a step of `4 + totalLength ≡ 0 (mod 2 ^ 32)`),
reported as `diverged`. -/
def consumeLoopF (base : Nat) (payload : List Nat) (bound : Nat) :
    Nat → Nat → Nat → List Message → ScanResult
  | 0, currentOffset, num, handled => ⟨num, handled, currentOffset, ScanOutcome.diverged⟩
  | fuel + 1, currentOffset, num, handled =>
    if currentOffset ≤ bound then
      match Decode (payload.drop currentOffset) with
      | none => ⟨num, handled, currentOffset, ScanOutcome.decodeErr⟩
      | some m =>
        consumeLoopF base payload bound fuel
          (currentOffset + (4 + m.totalLength) % 2 ^ 32) (num + 1)
          (handled ++ [{ m with offset := (base + currentOffset) % 2 ^ 64 }])
    else ⟨num, handled, currentOffset, ScanOutcome.ok⟩

/-- The scan-loop bound `uint64(length-4)`: `length` is the 32-bit value of
the response frame's 4-byte length field, so the subtraction is performed in
`uint32` and wraps modulo `2 ^ 32` when `length < 4`. -/
def scanBound (length : Nat) : Nat := (length + (2 ^ 32 - 4)) % 2 ^ 32

/-- The consumer: offset cursor (`uint64`) and max fetch size (`uint32`).
The broker connection itself is an external collaborator. -/
structure BrokerConsumer where
  offset : Nat
  maxSize : Nat
  deriving DecidableEq

/-- Construction: sets the base offset and maxSize. -/
def NewBrokerConsumer (offset : Nat) (maxSize : Nat) : BrokerConsumer :=
  { offset := offset, maxSize := maxSize }

/-- Result of one consume pass: the returned count, the messages handed to
the handler, the consumer state after the pass, and the outcome. -/
structure PassResult where
  num : Nat
  handled : List Message
  consumer : BrokerConsumer
  outcome : ScanOutcome
  deriving DecidableEq

/-- Tail of `consumeWithConn` after the scan loop: on success the cursor
advances by the bytes consumed (`consumer.offset += currentOffset`, a
`uint64` addition); on a decode error the count and already-handled messages
are returned but the consumer is left untouched. -/
def mkPassResult (consumer : BrokerConsumer) (r : ScanResult) : PassResult :=
  match r.outcome with
  | ScanOutcome.ok =>
      ⟨r.num, r.handled,
       { consumer with offset := (consumer.offset + r.currentOffset) % 2 ^ 64 },
       ScanOutcome.ok⟩
  | o => ⟨r.num, r.handled, consumer, o⟩

/-- One consume pass of `consumeWithConn`, given the `(length, payload)` pair
already read from the connection.  If `length ≤ 2` the pass returns zero
messages, no error, and leaves the cursor unchanged; otherwise the payload
is scanned starting at `currentOffset = 0`. -/
def consumeWithConn (consumer : BrokerConsumer) (length : Nat) (payload : List Nat) :
    PassResult :=
  if 2 < length then
    mkPassResult consumer
      (consumeLoopF consumer.offset payload (scanBound length) (scanBound length + 2) 0 0 [])
  else ⟨0, [], consumer, ScanOutcome.ok⟩

/-- The offset-collection loop of `GetOffsets`:
`for currentOffset < uint64(length-4) && uint32(len(offsets)) < numOffsets`.
Fuel-indexed structural recursion; since each iteration appends one offset
and the loop requires `offsets.length < numOffsets`, fuel `numOffsets + 1`
is never exhausted. -/
def getOffsetsLoopF (payload : List Nat) (bound numOffsets : Nat) :
    Nat → Nat → List Nat → List Nat
  | 0, _, offsets => offsets
  | fuel + 1, currentOffset, offsets =>
    if currentOffset < bound ∧ offsets.length < numOffsets then
      getOffsetsLoopF payload bound numOffsets fuel (currentOffset + 8)
        (offsets ++ [be64dec (payload.drop currentOffset)])
    else offsets

/-- The response-scanning part of `GetOffsets`, given the `(length, payload)`
pair already read from the connection.  `time` and `maxNumOffsets` are only
encoded into the request sent to the broker; the scan itself reads the count
from the first 4 bytes of the payload and collects successive 8-byte
big-endian offsets starting at byte 4. -/
def GetOffsets (time : Int) (maxNumOffsets : Nat) (length : Nat) (payload : List Nat) :
    List Nat :=
  if 4 < length then
    getOffsetsLoopF payload (scanBound length) (be32dec payload) (be32dec payload + 1) 4 []
  else []

/-- A well-formed message body (checksum region + payload): at least the
4-byte checksum, and small enough that the stored length field and the
`uint32` cursor step `4 + totalLength` represent it without wrapping. -/
def WFBody (b : List Nat) : Prop := 4 ≤ b.length ∧ 4 + b.length < 2 ^ 32

instance : DecidablePred WFBody := fun b =>
  inferInstanceAs (Decidable (4 ≤ b.length ∧ 4 + b.length < 2 ^ 32))

/-- Concatenation of well-formed message frames: each frame is the 4-byte
big-endian length field followed by the body (checksum + payload). -/
def concatFrames : List (List Nat) → List Nat
  | [] => []
  | b :: fs => be32enc b.length ++ b ++ concatFrames fs

/-- Total encoded size of a list of frames: `4 + totalLength` per frame. -/
def framesBytes : List (List Nat) → Nat
  | [] => 0
  | b :: fs => (4 + b.length) + framesBytes fs

/-- The messages a successful scan of concatenated frames hands to the
handler, starting at buffer position `c` with cursor base `base`. -/
def frameMsgs (base : Nat) : Nat → List (List Nat) → List Message
  | _, [] => []
  | c, b :: fs =>
    { offset := (base + c) % 2 ^ 64, totalLength := b.length,
      checksum := b.take 4, payload := b.drop 4 } :: frameMsgs base (c + (4 + b.length)) fs

/-- Every frame start position of the list lies within the scan bound, so
the loop body is entered once per frame. -/
def FramesFit (bound : Nat) : Nat → List (List Nat) → Prop
  | _, [] => True
  | c, b :: fs => c ≤ bound ∧ FramesFit bound (c + (4 + b.length)) fs

/-- Which error `readResponse` (or the preceding write) reported for a poll:
end-of-stream, or any other I/O error. -/
inductive PollErr where
  | eof : PollErr
  | other : PollErr
  deriving DecidableEq

/-- Outcome of the network part of one poll iteration: an I/O error from the
request/response exchange, or a successfully read response frame. -/
inductive PollInput where
  | ioErr (e : PollErr) : PollInput
  | response (length : Nat) (payload : List Nat) : PollInput
  deriving DecidableEq

/-- The polling goroutine of `ConsumeOnChannel`, driven by the sequence of
per-iteration network outcomes.  Returns the messages delivered to the
channel, the delivered-message count `num`, the number of poll iterations
executed, and the final consumer.  The Go loop breaks out on any non-nil
error from `consumeWithConn` (end-of-stream included; only non-EOF errors
are logged); messages handled before a mid-pass decode error were already
delivered. -/
def consumeOnChannelLoop : BrokerConsumer → List PollInput →
    List Message × Nat × Nat × BrokerConsumer
  | c, [] => ([], 0, 0, c)
  | c, PollInput.ioErr _ :: _ => ([], 0, 1, c)
  | c, PollInput.response length payload :: rest =>
    if (consumeWithConn c length payload).outcome = ScanOutcome.ok then
      ((consumeWithConn c length payload).handled ++
        (consumeOnChannelLoop (consumeWithConn c length payload).consumer rest).1,
       (consumeWithConn c length payload).handled.length +
        (consumeOnChannelLoop (consumeWithConn c length payload).consumer rest).2.1,
       (consumeOnChannelLoop (consumeWithConn c length payload).consumer rest).2.2.1 + 1,
       (consumeOnChannelLoop (consumeWithConn c length payload).consumer rest).2.2.2)
    else
      ((consumeWithConn c length payload).handled,
       (consumeWithConn c length payload).handled.length, 1,
       (consumeWithConn c length payload).consumer)

/-- Observable events of a `ConsumeUntilQuit` run: a handler invocation, a
close of the connection, and the completion signal `done <- true`. -/
inductive UQEvent where
  | handle (m : Message) : UQEvent
  | closeConn : UQEvent
  | doneSignal : UQEvent
  deriving DecidableEq

/-- Number of connection closes in an event trace. -/
def closeCount (evs : List UQEvent) : Nat := evs.count UQEvent.closeConn

/-- The polling goroutine of `ConsumeUntilQuit`, sequentialized: cancellation
is cooperative (the quit flag is read at the top of each iteration), so a run
is determined by `k`, the number of iterations completed before the flag is
observed, and by each iteration's network outcome.  Every error — including
end-of-stream — only skips/logs and the loop continues; messages handled
before a mid-pass decode error were already delivered.  The trace ends with
the completion signal; no close of the connection is ever performed. -/
def untilQuitEvents : Nat → (Nat → PollInput) → BrokerConsumer →
    List UQEvent × BrokerConsumer
  | 0, _, c => ([UQEvent.doneSignal], c)
  | k + 1, polls, c =>
    match polls 0 with
    | PollInput.ioErr _ => untilQuitEvents k (fun i => polls (i + 1)) c
    | PollInput.response length payload =>
      ((consumeWithConn c length payload).handled.map UQEvent.handle ++
        (untilQuitEvents k (fun i => polls (i + 1)) (consumeWithConn c length payload).consumer).1,
       (untilQuitEvents k (fun i => polls (i + 1)) (consumeWithConn c length payload).consumer).2)

/-- Sequentialized model of `ConsumeUntilQuit`.  `connectOk` is whether the
initial `broker.connect()` succeeded (on failure Go returns `(-1, 0, err)`).
On success the declared counters `messageCount` and `skippedMessageCount`
are never incremented anywhere in the body, and after the caller receives
the completion signal the function returns `(messageCount,
skippedMessageCount, nil)`.  The second component is the event trace of the
run, the third the final consumer. -/
def ConsumeUntilQuit (connectOk : Bool) (polls : Nat → PollInput) (k : Nat)
    (c : BrokerConsumer) :
    (Int × Int × Option Unit) × List UQEvent × BrokerConsumer :=
  if connectOk then
    ((0, 0, none), (untilQuitEvents k polls c).1, (untilQuitEvents k polls c).2)
  else ((-1, 0, some ()), [], c)

/-- One operation of a consumer's lifetime that touches (or could touch) the
cursor: a consume pass (performed by `Consume`, `ConsumeUntilQuit` and
`ConsumeOnChannel`, all through `consumeWithConn`), identified by the
response it scans, or a `GetOffsets` query, identified by its arguments and
response. -/
inductive ConsumerOp where
  | pass (length : Nat) (payload : List Nat) : ConsumerOp
  | query (time : Int) (maxNumOffsets : Nat) (length : Nat) (payload : List Nat) : ConsumerOp
  deriving DecidableEq

/-- Bytes consumed according to a scan result: the final `currentOffset` on
success, 0 on a failed pass (where the cursor is not updated). -/
def scanConsumed (r : ScanResult) : Nat :=
  match r.outcome with
  | ScanOutcome.ok => r.currentOffset
  | _ => 0

/-- Bytes a pass consumes: the final `currentOffset` of a successful scan,
and 0 for a short response (`length ≤ 2`) or a failed pass. -/
def passConsumed (c : BrokerConsumer) (length : Nat) (payload : List Nat) : Nat :=
  if 2 < length then
    scanConsumed (consumeLoopF c.offset payload (scanBound length) (scanBound length + 2) 0 0 [])
  else 0

/-- Cursor movement of one operation. -/
def opConsumed (c : BrokerConsumer) : ConsumerOp → Nat
  | ConsumerOp.pass length payload => passConsumed c length payload
  | ConsumerOp.query _ _ _ _ => 0

/-- Consumer state after one operation; `GetOffsets` never writes the
cursor. -/
def applyOp (c : BrokerConsumer) : ConsumerOp → BrokerConsumer
  | ConsumerOp.pass length payload => (consumeWithConn c length payload).consumer
  | ConsumerOp.query _ _ _ _ => c

/-- Consumer state after a sequence of operations. -/
def applyOps : BrokerConsumer → List ConsumerOp → BrokerConsumer
  | c, [] => c
  | c, op :: ops => applyOps (applyOp c op) ops

/-- Total bytes consumed by a sequence of operations. -/
def opsConsumed : BrokerConsumer → List ConsumerOp → Nat
  | _, [] => 0
  | c, op :: ops => opConsumed c op + opsConsumed (applyOp c op) ops

/-- No `uint64` wraparound of the cursor anywhere along a sequence of
operations. -/
def opsOK : BrokerConsumer → List ConsumerOp → Bool
  | _, [] => true
  | c, op :: ops =>
    decide (c.offset + opConsumed c op < 2 ^ 64) && opsOK (applyOp c op) ops

/-- The 4-byte length field always encodes to four bytes. -/
theorem be32enc_length (n : Nat) : (be32enc n).length = 4 := rfl

/-- Reading back a 4-byte big-endian encoding recovers the value. -/
theorem be32dec_enc (n : Nat) (l : List Nat) (hn : n < 2 ^ 32) :
    be32dec (be32enc n ++ l) = n := by
  simp [be32dec, be32enc, byteAt]
  omega

/-- Decoding at the start of a well-formed frame succeeds and yields the
frame's body split into checksum and payload, with `totalLength` the body
length. -/
theorem Decode_frame (b rest : List Nat) (hb : WFBody b) :
    Decode (be32enc b.length ++ (b ++ rest)) =
      some { offset := 0, totalLength := b.length,
             checksum := b.take 4, payload := b.drop 4 } := by
  obtain ⟨hb4, hb32⟩ := hb
  have hdec : be32dec (be32enc b.length ++ (b ++ rest)) = b.length :=
    be32dec_enc _ _ (by omega)
  have hdrop4 : (be32enc b.length ++ (b ++ rest)).drop 4 = b ++ rest :=
    List.drop_left' (be32enc_length b.length)
  have hdrop8 : (be32enc b.length ++ (b ++ rest)).drop 8 = b.drop 4 ++ rest := by
    rw [show (8 : Nat) = 4 + 4 from rfl, ← List.drop_drop, hdrop4,
      List.drop_append_of_le_length hb4]
  simp only [Decode, List.length_append, be32enc_length, hdec]
  rw [if_neg (by omega), if_neg (by omega), hdrop4, hdrop8,
    List.take_append_of_le_length hb4, List.take_left' (by simp)]

/-- Decoding a truncated frame (declared length exceeds the remaining
bytes) fails. -/
theorem Decode_truncated (n : Nat) (tail : List Nat) (hn : n < 2 ^ 32)
    (ht : tail.length < n) : Decode (be32enc n ++ tail) = none := by
  have hdec : be32dec (be32enc n ++ tail) = n := be32dec_enc _ _ hn
  simp only [Decode, List.length_append, be32enc_length, hdec]
  rw [if_neg (by omega), if_pos (by omega)]

/-- Decoding a buffer that cannot hold the 4-byte length field fails. -/
theorem Decode_short (buffer : List Nat) (h : buffer.length < 4) :
    Decode buffer = none := by
  simp only [Decode]
  rw [if_pos h]

/-- The scan loop exits with `ok` when the cursor has passed the bound. -/
theorem consumeLoopF_exit (base : Nat) (payload : List Nat) (bound fuel c num : Nat)
    (acc : List Message) (hc : bound < c) :
    consumeLoopF base payload bound (fuel + 1) c num acc =
      ⟨num, acc, c, ScanOutcome.ok⟩ := by
  simp only [consumeLoopF]
  rw [if_neg (by omega)]

/-- The scan loop stops with a decode error when the cursor is within the
bound but decoding at the cursor fails. -/
theorem consumeLoopF_enter_fail (base : Nat) (payload : List Nat) (bound fuel c num : Nat)
    (acc : List Message) (hc : c ≤ bound) (hd : Decode (payload.drop c) = none) :
    consumeLoopF base payload bound (fuel + 1) c num acc =
      ⟨num, acc, c, ScanOutcome.decodeErr⟩ := by
  simp only [consumeLoopF]
  rw [if_pos hc, hd]

/-- One successful iteration of the scan loop. -/
theorem consumeLoopF_enter_succeed (base : Nat) (payload : List Nat)
    (bound fuel c num : Nat) (acc : List Message) (m : Message) (hc : c ≤ bound)
    (hd : Decode (payload.drop c) = some m) :
    consumeLoopF base payload bound (fuel + 1) c num acc =
      consumeLoopF base payload bound fuel (c + (4 + m.totalLength) % 2 ^ 32) (num + 1)
        (acc ++ [{ m with offset := (base + c) % 2 ^ 64 }]) := by
  simp only [consumeLoopF]
  rw [if_pos hc, hd]

/-- Each well-formed frame occupies at least 8 bytes. -/
theorem framesBytes_ge (fs : List (List Nat)) (hwf : ∀ b ∈ fs, WFBody b) :
    8 * fs.length ≤ framesBytes fs := by
  induction fs with
  | nil => simp [framesBytes]
  | cons b fs ih =>
    have hb := hwf b (List.mem_cons_self b fs)
    have := ih (fun b' hb' => hwf b' (List.mem_cons_of_mem b hb'))
    simp only [framesBytes, List.length_cons]
    obtain ⟨h4, _⟩ := hb
    omega

/-- The concatenation of frames has exactly their total encoded size. -/
theorem concatFrames_length (fs : List (List Nat)) :
    (concatFrames fs).length = framesBytes fs := by
  induction fs with
  | nil => simp [concatFrames, framesBytes]
  | cons b fs ih =>
    simp [concatFrames, framesBytes, be32enc, ih]
    omega

/-- If the whole frame list ends within `bound + 8`, every frame's start
position is within the bound. -/
theorem FramesFit_of_le (fs : List (List Nat)) :
    ∀ (c bound : Nat), (∀ b ∈ fs, WFBody b) →
      c + framesBytes fs ≤ bound + 8 → FramesFit bound c fs := by
  induction fs with
  | nil => intro c bound _ _; trivial
  | cons b fs ih =>
    intro c bound hwf hle
    obtain ⟨hb4, _⟩ := hwf b (List.mem_cons_self b fs)
    have h8 : 8 * fs.length ≤ framesBytes fs :=
      framesBytes_ge fs (fun b' hb' => hwf b' (List.mem_cons_of_mem b hb'))
    simp only [framesBytes] at hle
    refine ⟨by omega, ?_⟩
    exact ih (c + (4 + b.length)) bound
      (fun b' hb' => hwf b' (List.mem_cons_of_mem b hb')) (by omega)

/-- Scanning a sequence of well-formed frames reduces the loop to its state
after all of them: one handler message per frame, with offsets assigned from
the base plus the frame's byte position. -/
theorem consumeLoopF_frames (base : Nat) (payload : List Nat) (bound : Nat)
    (tail : List Nat) (fs : List (List Nat)) :
    ∀ (fuel c num : Nat) (acc : List Message),
      (∀ b ∈ fs, WFBody b) →
      payload.drop c = concatFrames fs ++ tail →
      FramesFit bound c fs →
      fs.length ≤ fuel →
      consumeLoopF base payload bound fuel c num acc =
        consumeLoopF base payload bound (fuel - fs.length) (c + framesBytes fs)
          (num + fs.length) (acc ++ frameMsgs base c fs) := by
  induction fs with
  | nil =>
    intro fuel c num acc _ _ _ _
    simp [framesBytes, frameMsgs]
  | cons b fs ih =>
    intro fuel c num acc hwf hdrop hfit hfuel
    obtain ⟨hcb, hfit'⟩ := hfit
    have hwfb : WFBody b := hwf b (List.mem_cons_self b fs)
    obtain ⟨hb4, hb32⟩ := hwfb
    cases fuel with
    | zero => simp at hfuel
    | succ fuel =>
      have hdropc : payload.drop c =
          be32enc b.length ++ (b ++ (concatFrames fs ++ tail)) := by
        rw [hdrop]; simp [concatFrames, List.append_assoc]
      have hdropnext : payload.drop (c + (4 + b.length)) = concatFrames fs ++ tail := by
        rw [← List.drop_drop, hdropc,
          show be32enc b.length ++ (b ++ (concatFrames fs ++ tail)) =
            (be32enc b.length ++ b) ++ (concatFrames fs ++ tail) by
              simp [List.append_assoc]]
        exact List.drop_left' (by simp [be32enc]; omega)
      have hd : Decode (payload.drop c) =
          some { offset := 0, totalLength := b.length,
                 checksum := b.take 4, payload := b.drop 4 } := by
        rw [hdropc]; exact Decode_frame b _ ⟨hb4, hb32⟩
      rw [consumeLoopF_enter_succeed base payload bound fuel c num acc _ hcb hd]
      show consumeLoopF base payload bound fuel (c + (4 + b.length) % 2 ^ 32) (num + 1)
          (acc ++ [{ offset := (base + c) % 2 ^ 64, totalLength := b.length,
                     checksum := b.take 4, payload := b.drop 4 }]) = _
      rw [Nat.mod_eq_of_lt hb32]
      have hwf' : ∀ b' ∈ fs, WFBody b' := fun b' hb' => hwf b' (List.mem_cons_of_mem b hb')
      have hfl : fs.length ≤ fuel := by
        simp only [List.length_cons] at hfuel; omega
      have hIH := ih fuel (c + (4 + b.length)) (num + 1)
        (acc ++ [({ offset := (base + c) % 2 ^ 64, totalLength := b.length,
                    checksum := b.take 4, payload := b.drop 4 } : Message)])
        hwf' hdropnext hfit' hfl
      rw [hIH]
      simp only [List.length_cons, framesBytes, frameMsgs, List.append_assoc,
        List.singleton_append]
      rw [show fuel + 1 - (fs.length + 1) = fuel - fs.length by omega,
        show c + ((4 + b.length) + framesBytes fs) = c + (4 + b.length) + framesBytes fs by omega,
        show num + (fs.length + 1) = num + 1 + fs.length by omega]

/-- Every message produced by scanning frames carries an offset between the
start of its run and the end of the scanned bytes. -/
theorem frameMsgs_offset_bounds (base : Nat) (fs : List (List Nat)) :
    ∀ (c : Nat), (∀ b ∈ fs, WFBody b) → base + c + framesBytes fs < 2 ^ 64 →
      ∀ m ∈ frameMsgs base c fs,
        base + c ≤ m.offset ∧ m.offset < base + c + framesBytes fs := by
  induction fs with
  | nil => intro c _ _ m hm; simp [frameMsgs] at hm
  | cons b fs ih =>
    intro c hwf hov m hm
    obtain ⟨hb4, _⟩ := hwf b (List.mem_cons_self b fs)
    have hwf' : ∀ b' ∈ fs, WFBody b' := fun b' hb' => hwf b' (List.mem_cons_of_mem b hb')
    simp only [framesBytes] at hov ⊢
    simp only [frameMsgs, List.mem_cons] at hm
    rcases hm with rfl | hm
    · show base + c ≤ (base + c) % 2 ^ 64 ∧
        (base + c) % 2 ^ 64 < base + c + ((4 + b.length) + framesBytes fs)
      rw [Nat.mod_eq_of_lt (by omega : base + c < 2 ^ 64)]
      omega
    · have hb := ih (c + (4 + b.length)) hwf' (by omega) m hm
      omega

/-- The messages of a scanned frame run have strictly ascending assigned
offsets. -/
theorem frameMsgs_sorted (base : Nat) (fs : List (List Nat)) :
    ∀ (c : Nat), (∀ b ∈ fs, WFBody b) → base + c + framesBytes fs < 2 ^ 64 →
      List.Pairwise (fun m₁ m₂ => m₁.offset < m₂.offset) (frameMsgs base c fs) := by
  induction fs with
  | nil => intro c _ _; simp [frameMsgs]
  | cons b fs ih =>
    intro c hwf hov
    obtain ⟨hb4, _⟩ := hwf b (List.mem_cons_self b fs)
    have hwf' : ∀ b' ∈ fs, WFBody b' := fun b' hb' => hwf b' (List.mem_cons_of_mem b hb')
    simp only [framesBytes] at hov
    simp only [frameMsgs, List.pairwise_cons]
    constructor
    · intro m hm
      have hb := frameMsgs_offset_bounds base fs (c + (4 + b.length)) hwf' (by omega) m hm
      show (base + c) % 2 ^ 64 < m.offset
      rw [Nat.mod_eq_of_lt (by omega : base + c < 2 ^ 64)]
      omega
    · exact ih (c + (4 + b.length)) hwf' (by omega)

/-- C1: a consume pass over a response holding exactly K well-formed
concatenated message frames (declared length consistent with the frames,
hence in particular greater than 2) invokes the handler exactly K times:
once per frame, in ascending assigned-offset order, where the i-th message
gets absolute offset `cursor.offset` plus the byte position of its frame,
and on completion the cursor advances by exactly the sum over all frames of
`4 + frame.totalLength`. -/
theorem consume_pass_wellformed_frames (c : BrokerConsumer) (fs : List (List Nat))
    (length : Nat) (hne : fs ≠ []) (hwf : ∀ b ∈ fs, WFBody b)
    (hlen1 : framesBytes fs ≤ length) (hlen2 : length < framesBytes fs + 4)
    (hlen3 : length < 2 ^ 32) (hov : c.offset + framesBytes fs < 2 ^ 64) :
    consumeWithConn c length (concatFrames fs) =
      ⟨fs.length, frameMsgs c.offset 0 fs,
       { c with offset := c.offset + framesBytes fs }, ScanOutcome.ok⟩ ∧
    List.Pairwise (fun m₁ m₂ => m₁.offset < m₂.offset) (frameMsgs c.offset 0 fs) := by
  have hK1 : 1 ≤ fs.length := List.length_pos.mpr hne
  have h8K : 8 * fs.length ≤ framesBytes fs := framesBytes_ge fs hwf
  refine ⟨?_, frameMsgs_sorted c.offset fs 0 hwf (by omega)⟩
  have hb : scanBound length = length - 4 := by unfold scanBound; omega
  have hfit : FramesFit (length - 4) 0 fs :=
    FramesFit_of_le fs 0 (length - 4) hwf (by omega)
  have hcomp := consumeLoopF_frames c.offset (concatFrames fs) (length - 4) [] fs
    (length - 4 + 2) 0 0 [] hwf (by simp) hfit (by omega)
  unfold consumeWithConn
  rw [if_pos (by omega), hb, hcomp]
  rw [show length - 4 + 2 - fs.length = (length - 4 + 2 - fs.length - 1) + 1 by omega]
  have hexit := consumeLoopF_exit c.offset (concatFrames fs) (length - 4)
    (length - 4 + 2 - fs.length - 1) (0 + framesBytes fs) (0 + fs.length)
    ([] ++ frameMsgs c.offset 0 fs) (by omega)
  rw [hexit]
  simp only [mkPassResult, Nat.zero_add, List.nil_append]
  rw [Nat.mod_eq_of_lt (by omega : c.offset + framesBytes fs < 2 ^ 64)]

/-- C3: when a pass hits a truncated trailing frame (its declared length `n`
exceeds the remaining bytes), the pass returns a decode error and applies no
cursor advancement at all, even though the earlier well-formed frames of the
same pass were decoded and handed to the handler. -/
theorem consume_pass_truncated_tail (c : BrokerConsumer) (fs : List (List Nat))
    (n : Nat) (tail : List Nat) (length : Nat)
    (hwf : ∀ b ∈ fs, WFBody b) (hn : n < 2 ^ 32) (ht : tail.length < n)
    (hlen1 : framesBytes fs + 4 ≤ length) (hlen3 : length < 2 ^ 32) :
    consumeWithConn c length (concatFrames fs ++ (be32enc n ++ tail)) =
      ⟨fs.length, frameMsgs c.offset 0 fs, c, ScanOutcome.decodeErr⟩ := by
  have h8K := framesBytes_ge fs hwf
  have hb : scanBound length = length - 4 := by unfold scanBound; omega
  have hfit : FramesFit (length - 4) 0 fs :=
    FramesFit_of_le fs 0 (length - 4) hwf (by omega)
  have hcomp := consumeLoopF_frames c.offset (concatFrames fs ++ (be32enc n ++ tail))
    (length - 4) (be32enc n ++ tail) fs (length - 4 + 2) 0 0 [] hwf (by simp) hfit (by omega)
  have hdropL : (concatFrames fs ++ (be32enc n ++ tail)).drop (0 + framesBytes fs) =
      be32enc n ++ tail := by
    rw [Nat.zero_add]
    exact List.drop_left' (concatFrames_length fs)
  unfold consumeWithConn
  rw [if_pos (by omega), hb, hcomp]
  rw [show length - 4 + 2 - fs.length = (length - 4 + 2 - fs.length - 1) + 1 by omega]
  have hfail := consumeLoopF_enter_fail c.offset (concatFrames fs ++ (be32enc n ++ tail))
    (length - 4) (length - 4 + 2 - fs.length - 1) (0 + framesBytes fs) (0 + fs.length)
    ([] ++ frameMsgs c.offset 0 fs) (by omega)
    (by rw [hdropL]; exact Decode_truncated n tail hn ht)
  rw [hfail]
  simp only [mkPassResult, Nat.zero_add, List.nil_append]

/-- C7: a response with declared length at most 2 yields count 0, no error,
zero handler invocations, and an unchanged cursor. -/
theorem consume_pass_short_response (c : BrokerConsumer) (length : Nat)
    (payload : List Nat) (h : length ≤ 2) :
    consumeWithConn c length payload = ⟨0, [], c, ScanOutcome.ok⟩ := by
  unfold consumeWithConn
  rw [if_neg (by omega)]

/-- C10 (amended): a declared length of exactly 3 is not treated as zero
messages: the `uint32` subtraction `length - 4` wraps, the scan loop is
entered on the 3-byte payload, decoding fails, and the pass returns a decode
error with the cursor unchanged. -/
theorem consume_pass_length_three (c : BrokerConsumer) (payload : List Nat)
    (h : payload.length = 3) :
    consumeWithConn c 3 payload = ⟨0, [], c, ScanOutcome.decodeErr⟩ := by
  have hd : Decode (payload.drop 0) = none := by
    rw [List.drop_zero]; exact Decode_short payload (by omega)
  unfold consumeWithConn
  rw [if_pos (by omega)]
  rw [show scanBound 3 + 2 = (scanBound 3 + 1) + 1 by omega]
  have hfail := consumeLoopF_enter_fail c.offset payload (scanBound 3) (scanBound 3 + 1)
    0 0 [] (Nat.zero_le _) hd
  rw [hfail]
  simp only [mkPassResult]

/-- C10 (counterexample): the scan-loop bound for a declared length of 3 is
the `uint32` wraparound value `2 ^ 32 - 1`, not `2 ^ 64 - 1`: the length is
a 32-bit value read from the 4-byte length field, so `length - 4` wraps in
32-bit, not 64-bit, arithmetic. -/
theorem scanBound_wrap_cex :
    scanBound 3 = 2 ^ 32 - 1 ∧ (2 ^ 32 - 1 : Nat) ≠ 2 ^ 64 - 1 := by decide

/-- C4 (counterexample): a pass over one well-formed 8-byte frame followed
by a truncated frame (declared length 5, 1 byte remaining) decodes and hands
over the first message, then fails; the cursor stays at its starting value
10 and is NOT advanced to `10 + 8`, the end of the last good frame. -/
theorem cursor_rollback_cex :
    (consumeWithConn ⟨10, 0⟩ 13 [0, 0, 0, 4, 1, 2, 3, 4, 0, 0, 0, 5, 9]).outcome =
        ScanOutcome.decodeErr ∧
    (consumeWithConn ⟨10, 0⟩ 13 [0, 0, 0, 4, 1, 2, 3, 4, 0, 0, 0, 5, 9]).num = 1 ∧
    (consumeWithConn ⟨10, 0⟩ 13 [0, 0, 0, 4, 1, 2, 3, 4, 0, 0, 0, 5, 9]).consumer.offset = 10 ∧
    (consumeWithConn ⟨10, 0⟩ 13 [0, 0, 0, 4, 1, 2, 3, 4, 0, 0, 0, 5, 9]).consumer.offset ≠
        10 + (4 + 4) := by decide

/-- On a long-enough response, a pass is the scan loop's result wrapped by
`mkPassResult`. -/
theorem consumeWithConn_eq_loop (c : BrokerConsumer) (len : Nat) (p : List Nat)
    (hl : 2 < len) (n : Nat) (hs : List Message) (cur : Nat) (o : ScanOutcome)
    (hres : consumeLoopF c.offset p (scanBound len) (scanBound len + 2) 0 0 [] =
      ⟨n, hs, cur, o⟩) :
    consumeWithConn c len p = mkPassResult c ⟨n, hs, cur, o⟩ := by
  unfold consumeWithConn
  rw [if_pos hl, hres]

/-- The bytes consumed by a pass, read off the scan loop's result. -/
theorem passConsumed_eq (c : BrokerConsumer) (len : Nat) (p : List Nat)
    (hl : 2 < len) (n : Nat) (hs : List Message) (cur : Nat) (o : ScanOutcome)
    (hres : consumeLoopF c.offset p (scanBound len) (scanBound len + 2) 0 0 [] =
      ⟨n, hs, cur, o⟩) :
    passConsumed c len p = scanConsumed ⟨n, hs, cur, o⟩ := by
  unfold passConsumed
  rw [if_pos hl, hres]

/-- Unchanged-cursor form of `passConsumed` for short responses. -/
theorem passConsumed_short (c : BrokerConsumer) (len : Nat) (p : List Nat)
    (hl : ¬ 2 < len) : passConsumed c len p = 0 := by
  unfold passConsumed
  rw [if_neg hl]

/-- C4 (amended): on a decode failure mid-pass the cursor is not advanced at
all — the whole pass's advancement is discarded, it is not rolled back to
merely the last fully-decoded frame. -/
theorem consume_pass_decode_error_no_advance (c : BrokerConsumer) (length : Nat)
    (payload : List Nat)
    (h : (consumeWithConn c length payload).outcome = ScanOutcome.decodeErr) :
    (consumeWithConn c length payload).consumer = c := by
  by_cases hl : 2 < length
  · rcases hres : consumeLoopF c.offset payload (scanBound length) (scanBound length + 2) 0 0 []
      with ⟨n, hs, cur, o⟩
    have he := consumeWithConn_eq_loop c length payload hl n hs cur o hres
    rw [he] at h ⊢
    cases o with
    | ok => simp [mkPassResult] at h
    | decodeErr => simp [mkPassResult]
    | diverged => simp [mkPassResult] at h
  · have he : consumeWithConn c length payload = ⟨0, [], c, ScanOutcome.ok⟩ := by
      unfold consumeWithConn; rw [if_neg hl]
    rw [he] at h
    simp at h

/-- The offset-collection loop never returns more offsets than the count
bound `numOffsets`, provided it starts within that bound. -/
theorem getOffsetsLoopF_length_le (payload : List Nat) (bound numOffsets : Nat) :
    ∀ (fuel currentOffset : Nat) (offsets : List Nat), offsets.length ≤ numOffsets →
      (getOffsetsLoopF payload bound numOffsets fuel currentOffset offsets).length ≤
        numOffsets := by
  intro fuel
  induction fuel with
  | zero => intro co offs h; exact h
  | succ fuel ih =>
    intro co offs h
    simp only [getOffsetsLoopF]
    by_cases hcond : co < bound ∧ offs.length < numOffsets
    · rw [if_pos hcond]
      exact ih (co + 8) (offs ++ [be64dec (payload.drop co)]) (by simp; omega)
    · rw [if_neg hcond]; exact h

/-- C2 (counterexample): for the response payload `[count=3][o1][o2][o3]`
(declared length 28) with `maxNumOffsets = 2`, `GetOffsets` returns all
three offsets `[o1, o2, o3]`, not `[o1, o2]`: the scan is not truncated by
`maxNumOffsets`. -/
theorem getOffsets_ignores_maxNumOffsets_cex :
    GetOffsets (-1) 2 28
        [0, 0, 0, 3, 11, 22, 33, 44, 55, 66, 77, 88, 12, 23, 34, 45, 56, 67, 78, 89,
         13, 24, 35, 46, 57, 68, 79, 90] =
      [798862457694211416, 871202630532288089, 943542803370364762] ∧
    ([798862457694211416, 871202630532288089, 943542803370364762] : List Nat) ≠
      [798862457694211416, 871202630532288089] := by decide

/-- C2 (amended): the offset list returned by `GetOffsets` is truncated by
the count field embedded in the response payload, not by the caller-supplied
`maxNumOffsets`: the result is entirely independent of `maxNumOffsets` (and
of `time`), which are only encoded into the request, and its length never
exceeds the payload's 4-byte count field. -/
theorem getOffsets_truncated_by_count_field :
    (∀ (time time' : Int) (maxNumOffsets maxNumOffsets' length : Nat) (payload : List Nat),
      GetOffsets time maxNumOffsets length payload =
        GetOffsets time' maxNumOffsets' length payload) ∧
    ∀ (time : Int) (maxNumOffsets length : Nat) (payload : List Nat),
      (GetOffsets time maxNumOffsets length payload).length ≤ be32dec payload := by
  constructor
  · intro _ _ _ _ _ _; rfl
  · intro t m length payload
    unfold GetOffsets
    by_cases hl : 4 < length
    · rw [if_pos hl]
      exact getOffsetsLoopF_length_le payload (scanBound length) (be32dec payload)
        (be32dec payload + 1) 4 [] (by simp)
    · rw [if_neg hl]; simp

/-- C5 (counterexample): an end-of-stream error on the first poll stops the
`ConsumeOnChannel` loop after exactly one iteration — the loop does not
continue to the second poll. -/
theorem channel_loop_eof_stops_cex :
    (consumeOnChannelLoop ⟨0, 0⟩
      [PollInput.ioErr PollErr.eof, PollInput.response 2 []]).2.2.1 = 1 ∧
    (1 : Nat) ≠ 2 := by decide

/-- C5 (amended): the `ConsumeOnChannel` polling loop terminates on the
first error of any kind — end-of-stream included (end-of-stream differs only
in not being logged): an I/O error on the current poll ends the loop after
that single iteration, delivering nothing further, whatever polls would
follow. -/
theorem channel_loop_stops_on_any_error (c : BrokerConsumer) (e : PollErr)
    (rest : List PollInput) :
    consumeOnChannelLoop c (PollInput.ioErr e :: rest) = ([], 0, 1, c) := rfl

/-- Every sequentialized `ConsumeUntilQuit` trace is a run of handler events
followed by the completion signal. -/
theorem untilQuitEvents_shape (k : Nat) :
    ∀ (polls : Nat → PollInput) (c : BrokerConsumer),
      ∃ ms : List Message,
        (untilQuitEvents k polls c).1 = ms.map UQEvent.handle ++ [UQEvent.doneSignal] := by
  induction k with
  | zero => intro polls c; exact ⟨[], rfl⟩
  | succ k ih =>
    intro polls c
    simp only [untilQuitEvents]
    cases hp : polls 0 with
    | ioErr e => exact ih _ c
    | response length payload =>
      obtain ⟨ms, hms⟩ :=
        ih (fun i => polls (i + 1)) (consumeWithConn c length payload).consumer
      refine ⟨(consumeWithConn c length payload).handled ++ ms, ?_⟩
      simp [hms, List.map_append, List.append_assoc]

/-- A trace of handler events followed by the completion signal contains no
connection close. -/
theorem closeCount_handles (ms : List Message) :
    closeCount (ms.map UQEvent.handle ++ [UQEvent.doneSignal]) = 0 := by
  induction ms with
  | nil => rfl
  | cons m ms ih =>
    simp only [List.map_cons, List.cons_append, closeCount, List.count_cons] at ih ⊢
    simpa using ih

/-- C6 (counterexample): a run of `ConsumeUntilQuit` that connects, decodes
messages during two polls, and then observes the quit signal closes the
connection zero times — not exactly once. -/
theorem consumeUntilQuit_no_close_cex :
    closeCount (ConsumeUntilQuit true
      (fun _ => PollInput.response 8 [0, 0, 0, 4, 1, 2, 3, 4]) 2 ⟨0, 16⟩).2.1 = 0 ∧
    (0 : Nat) ≠ 1 := by decide

/-- C6 (amended): for every cancelled run of `ConsumeUntilQuit`, the event
trace consists of the handler invocations followed by the completion signal
— so no handler invocation occurs after the completion signal is observed by
the caller — and the connection is never closed (zero times, not once). -/
theorem consumeUntilQuit_trace (polls : Nat → PollInput) (k : Nat) (c : BrokerConsumer) :
    (∃ ms : List Message,
      (ConsumeUntilQuit true polls k c).2.1 =
        ms.map UQEvent.handle ++ [UQEvent.doneSignal]) ∧
    closeCount (ConsumeUntilQuit true polls k c).2.1 = 0 := by
  obtain ⟨ms, hms⟩ := untilQuitEvents_shape k polls c
  have h1 : (ConsumeUntilQuit true polls k c).2.1 = (untilQuitEvents k polls c).1 := rfl
  rw [h1, hms]
  exact ⟨⟨ms, rfl⟩, closeCount_handles ms⟩

/-- C9: whenever the initial connection succeeds and the quit signal
eventually arrives, `ConsumeUntilQuit` returns message count 0,
skipped-message count 0, and no error, regardless of how many messages were
decoded and delivered to the handler during polling: its two counters are
never incremented. -/
theorem consumeUntilQuit_zero_counters (polls : Nat → PollInput) (k : Nat)
    (c : BrokerConsumer) :
    (ConsumeUntilQuit true polls k c).1 = (0, 0, none) := rfl

/-- One operation moves the cursor forward by exactly the bytes it consumed,
when that addition does not wrap. -/
theorem applyOp_offset (c : BrokerConsumer) (op : ConsumerOp)
    (h : c.offset + opConsumed c op < 2 ^ 64) :
    (applyOp c op).offset = c.offset + opConsumed c op := by
  cases op with
  | query t m len p => simp [applyOp, opConsumed]
  | pass len p =>
    by_cases hl : 2 < len
    · rcases hres : consumeLoopF c.offset p (scanBound len) (scanBound len + 2) 0 0 []
        with ⟨n, hs, cur, o⟩
      have he := consumeWithConn_eq_loop c len p hl n hs cur o hres
      have hpc := passConsumed_eq c len p hl n hs cur o hres
      simp only [applyOp, opConsumed] at h ⊢
      rw [hpc] at h
      rw [he, hpc]
      cases o with
      | ok =>
        show (c.offset + cur) % 2 ^ 64 = c.offset + cur
        exact Nat.mod_eq_of_lt h
      | decodeErr => rfl
      | diverged => rfl
    · have he : consumeWithConn c len p = ⟨0, [], c, ScanOutcome.ok⟩ := by
        unfold consumeWithConn; rw [if_neg hl]
      simp only [applyOp, opConsumed] at h ⊢
      rw [he, passConsumed_short c len p hl]
      rfl

/-- C8: across any sequence of operations (consume passes — as performed by
`Consume`, `ConsumeUntilQuit` and `ConsumeOnChannel` — and `GetOffsets`
queries, which never write the cursor), provided the `uint64` cursor never
wraps, the cursor is non-decreasing and after the sequence it equals its
starting value plus the total bytes consumed by the successful passes. -/
theorem cursor_monotone_accounted (c : BrokerConsumer) (ops : List ConsumerOp)
    (h : opsOK c ops = true) :
    (applyOps c ops).offset = c.offset + opsConsumed c ops ∧
      c.offset ≤ (applyOps c ops).offset := by
  induction ops generalizing c with
  | nil => simp [applyOps, opsConsumed]
  | cons op ops ih =>
    simp only [opsOK, Bool.and_eq_true, decide_eq_true_eq] at h
    obtain ⟨h1, h2⟩ := h
    have hstep := applyOp_offset c op h1
    obtain ⟨e1, e2⟩ := ih (applyOp c op) h2
    simp only [applyOps, opsConsumed]
    constructor
    · rw [e1, hstep]; omega
    · omega

/-- Witness for C1 at a concrete single-frame response: body `[1,2,3,4]`
(checksum only), declared length 8, base offset 0. -/
theorem consume_pass_wellformed_frames_holds :
    ([[1, 2, 3, 4]] : List (List Nat)) ≠ [] ∧
    (∀ b ∈ [[1, 2, 3, 4]], WFBody b) ∧
    framesBytes [[1, 2, 3, 4]] ≤ 8 ∧
    8 < framesBytes [[1, 2, 3, 4]] + 4 ∧
    (8 : Nat) < 2 ^ 32 ∧
    (⟨0, 100⟩ : BrokerConsumer).offset + framesBytes [[1, 2, 3, 4]] < 2 ^ 64 ∧
    (consumeWithConn ⟨0, 100⟩ 8 (concatFrames [[1, 2, 3, 4]]) =
        ⟨1, frameMsgs 0 0 [[1, 2, 3, 4]], ⟨8, 100⟩, ScanOutcome.ok⟩ ∧
      List.Pairwise (fun m₁ m₂ => m₁.offset < m₂.offset) (frameMsgs 0 0 [[1, 2, 3, 4]])) :=
  ⟨by decide, by decide, by decide, by decide, by decide, by decide,
    consume_pass_wellformed_frames ⟨0, 100⟩ [[1, 2, 3, 4]] 8 (by decide) (by decide)
      (by decide) (by decide) (by decide) (by decide)⟩

/-- Witness for C3 at a concrete response: one good frame with body
`[9,9,9,9]` followed by a truncated frame declaring 6 bytes with only 1
remaining; the good frame is handled, the error is returned, and the cursor
stays at 7. -/
theorem consume_pass_truncated_tail_holds :
    (∀ b ∈ [[9, 9, 9, 9]], WFBody b) ∧
    (6 : Nat) < 2 ^ 32 ∧
    ([1] : List Nat).length < 6 ∧
    framesBytes [[9, 9, 9, 9]] + 4 ≤ 12 ∧
    (12 : Nat) < 2 ^ 32 ∧
    consumeWithConn ⟨7, 50⟩ 12 (concatFrames [[9, 9, 9, 9]] ++ (be32enc 6 ++ [1])) =
      ⟨1, frameMsgs 7 0 [[9, 9, 9, 9]], ⟨7, 50⟩, ScanOutcome.decodeErr⟩ :=
  ⟨by decide, by decide, by decide, by decide, by decide,
    consume_pass_truncated_tail ⟨7, 50⟩ [[9, 9, 9, 9]] 6 [1] 12 (by decide) (by decide)
      (by decide) (by decide) (by decide)⟩

/-- Witness for the amended C4: a pass whose first decode fails (empty
payload, declared length 5) leaves the consumer untouched. -/
theorem consume_pass_decode_error_no_advance_holds :
    (consumeWithConn ⟨3, 1⟩ 5 []).outcome = ScanOutcome.decodeErr ∧
    (consumeWithConn ⟨3, 1⟩ 5 []).consumer = ⟨3, 1⟩ :=
  ⟨by decide, consume_pass_decode_error_no_advance ⟨3, 1⟩ 5 [] (by decide)⟩

/-- Witness for C7 at declared length 2. -/
theorem consume_pass_short_response_holds :
    (2 : Nat) ≤ 2 ∧
    consumeWithConn ⟨42, 7⟩ 2 [5, 5] = ⟨0, [], ⟨42, 7⟩, ScanOutcome.ok⟩ :=
  ⟨by decide, consume_pass_short_response ⟨42, 7⟩ 2 [5, 5] (by decide)⟩

/-- Witness for C8 on a concrete sequence: a successful one-frame pass, a
`GetOffsets` query, and an empty pass; the cursor moves 100 → 108 and never
regresses. -/
theorem cursor_monotone_accounted_holds :
    opsOK ⟨100, 64⟩ [ConsumerOp.pass 8 [0, 0, 0, 4, 1, 2, 3, 4],
        ConsumerOp.query (-1) 2 6 [9, 8, 7],
        ConsumerOp.pass 2 []] = true ∧
    ((applyOps ⟨100, 64⟩ [ConsumerOp.pass 8 [0, 0, 0, 4, 1, 2, 3, 4],
        ConsumerOp.query (-1) 2 6 [9, 8, 7],
        ConsumerOp.pass 2 []]).offset =
      (⟨100, 64⟩ : BrokerConsumer).offset +
        opsConsumed ⟨100, 64⟩ [ConsumerOp.pass 8 [0, 0, 0, 4, 1, 2, 3, 4],
          ConsumerOp.query (-1) 2 6 [9, 8, 7],
          ConsumerOp.pass 2 []] ∧
      (⟨100, 64⟩ : BrokerConsumer).offset ≤
        (applyOps ⟨100, 64⟩ [ConsumerOp.pass 8 [0, 0, 0, 4, 1, 2, 3, 4],
          ConsumerOp.query (-1) 2 6 [9, 8, 7],
          ConsumerOp.pass 2 []]).offset) :=
  ⟨by decide,
    cursor_monotone_accounted ⟨100, 64⟩ [ConsumerOp.pass 8 [0, 0, 0, 4, 1, 2, 3, 4],
      ConsumerOp.query (-1) 2 6 [9, 8, 7],
      ConsumerOp.pass 2 []] (by decide)⟩

/-- Witness for the amended C10 at the concrete 3-byte payload `[0,0,0]`. -/
theorem consume_pass_length_three_holds :
    ([0, 0, 0] : List Nat).length = 3 ∧
    consumeWithConn ⟨5, 0⟩ 3 [0, 0, 0] = ⟨0, [], ⟨5, 0⟩, ScanOutcome.decodeErr⟩ :=
  ⟨rfl, consume_pass_length_three ⟨5, 0⟩ [0, 0, 0] rfl⟩

end Kafka
